import Mathlib

/-!
Shallow embedding of `src/main.py` (SMU academic-calendar fetcher).

The Python program fetches yearly batches of calendar records, deserializes
them into `SmuCalendarEvent` dataclass instances, aggregates them into a
Python `set`, sorts them, converts each to an `ics.Event` and writes an ics
file.  The embedding below models, faithfully to the source:

* the Python exceptions that can be raised on each code path (`PyErr`);
* the HTML text extraction done by `HTMLTagRemover` (a subclass of the
  CPython stdlib `html.parser.HTMLParser` with `convert_charrefs=True`
  whose `handle_data` concatenates all data chunks); the stdlib parser's
  `goahead` scanning loop is modelled over `List Char`, restricted as
  documented on each definition (no CDATA mode, i.e. inputs without
  `script`/`style` elements; the html5 named-entity table restricted to the
  entities used by this development; the windows-1252 legacy remap of a few
  numeric references omitted);
* `datetime.strptime(s, "%Y-%m-%d")` (exactly four year digits, one or two
  month/day digits, calendar validity, `ValueError` on failure);
* the dataclass-generated `__eq__` (all thirteen fields) together with the
  hand-written `__hash__` (article number), and Python `set` insertion
  semantics (an element is added unless an existing element compares `==`);
* the crawler's `_validate`/`_deserialize`, over a JSON value type;
* the orchestrator `fetch_events`/`main`, with the network call abstracted
  as a function from a year to either a year's record list or an exception.

I/O boundaries (the HTTP POST itself, logging output, directory creation and
file writing) are external collaborators; the run is modelled up to the
produced calendar document, with `Except` tracking the exception that would
terminate the process.
-/

/-- Python exception kinds raised by the embedded code paths: `KeyError`
(missing dict key, the spec's SchemaError), `TypeError`, `AssertionError`
(failed `assert` in `_validate`, the spec's ProtocolError), and `ValueError`
(raised by `datetime.strptime`, the spec's DateFormatError). -/
inductive PyErr
  | keyError
  | typeError
  | assertionError
  | valueError
deriving DecidableEq, Repr

/-! ## HTML text extraction (`HTMLTagRemover`, stdlib `html.parser`) -/

/-- The character class of a named character reference, the regex class
`[^\t\n\x0c <&#;]` from CPython `html._charref`. -/
def charrefNameChar (c : Char) : Bool :=
  !(c = '\t' || c = '\n' || c = '\x0c' || c = ' ' || c = '<' || c = '&' || c = '#' || c = ';')

/-- Take at most `n` leading characters satisfying `p`; returns the taken
prefix and the remaining suffix (the `{1,32}` bounded greedy match). -/
def takeUpTo : Nat → (Char → Bool) → List Char → List Char × List Char
  | 0, _, l => ([], l)
  | _ + 1, _, [] => ([], [])
  | n + 1, p, c :: r =>
    if p c then
      let t := takeUpTo n p r
      (c :: t.1, t.2)
    else ([], c :: r)

/-- Named-entity table.  CPython resolves against the full `html5` dict
(with and without trailing semicolon); the embedding restricts it to the
four entities this development uses (`amp`, `lt`, `gt`, `quot`), which is
faithful on every input whose named references are among these. -/
def namedEntity (s : List Char) : Option Char :=
  if s = ['a', 'm', 'p', ';'] ∨ s = ['a', 'm', 'p'] then some '&'
  else if s = ['l', 't', ';'] ∨ s = ['l', 't'] then some '<'
  else if s = ['g', 't', ';'] ∨ s = ['g', 't'] then some '>'
  else if s = ['q', 'u', 'o', 't', ';'] ∨ s = ['q', 'u', 'o', 't'] then some '"'
  else none

/-- Longest-prefix fallback of CPython `html._replace_charref`: prefix
lengths are tried from `n` down to `2`. -/
def longestPrefixEntity : Nat → List Char → Option (Char × List Char)
  | 0, _ => none
  | n + 1, s =>
    if n + 1 < 2 then none
    else
      match namedEntity (s.take (n + 1)) with
      | some c => some (c, s.drop (n + 1))
      | none => longestPrefixEntity n s

/-- Replacement of a matched named reference group (CPython
`html._replace_charref`, named branch): exact table hit, else longest prefix
in the table, else the match is kept verbatim (`'&' + s`). -/
def replaceNamed (s : List Char) : List Char :=
  match namedEntity s with
  | some c => [c]
  | none =>
    match longestPrefixEntity (s.length - 1) s with
    | some (c, rest) => c :: rest
    | none => '&' :: s

def isHexDigit (c : Char) : Bool :=
  c.isDigit || ('a' ≤ c && c ≤ 'f') || ('A' ≤ c && c ≤ 'F')

def hexDigitVal (c : Char) : Nat :=
  if c.isDigit then c.toNat - 48
  else if 'a' ≤ c ∧ c ≤ 'f' then c.toNat - 87
  else c.toNat - 55

def digitsVal (l : List Char) : Nat :=
  l.foldl (fun a c => a * 10 + (c.toNat - 48)) 0

def hexVal (l : List Char) : Nat :=
  l.foldl (fun a c => a * 16 + hexDigitVal c) 0

/-- Character produced by a numeric reference (CPython
`html._replace_charref`, numeric branch): surrogates and values above
`0x10FFFF` give U+FFFD.  The windows-1252 legacy remap table
(`html._invalid_charrefs`) is omitted; the model is faithful for numeric
references outside that small table, and no claim exercises them. -/
def numEntityChar (n : Nat) : Char :=
  if 0xD800 ≤ n ∧ n ≤ 0xDFFF then '�'
  else if n > 0x10FFFF then '�'
  else Char.ofNat n

/-- One attempted match of the `_charref` regex at a position right after a
`'&'`: numeric (`#digits;?`, `#x hexdigits;?`) or named
(`[^\t\n\x0c <&#;]{1,32};?`).  Returns the replacement text and the rest of
the input, or `none` when the regex does not match here. -/
def parseCharref (l : List Char) : Option (List Char × List Char) :=
  match l with
  | '#' :: rest =>
    match rest with
    | 'x' :: r =>
      let t := r.takeWhile isHexDigit
      if t = [] then none
      else
        match r.dropWhile isHexDigit with
        | ';' :: r2 => some ([numEntityChar (hexVal t)], r2)
        | r2 => some ([numEntityChar (hexVal t)], r2)
    | 'X' :: r =>
      let t := r.takeWhile isHexDigit
      if t = [] then none
      else
        match r.dropWhile isHexDigit with
        | ';' :: r2 => some ([numEntityChar (hexVal t)], r2)
        | r2 => some ([numEntityChar (hexVal t)], r2)
    | _ =>
      let t := rest.takeWhile Char.isDigit
      if t = [] then none
      else
        match rest.dropWhile Char.isDigit with
        | ';' :: r2 => some ([numEntityChar (digitsVal t)], r2)
        | r2 => some ([numEntityChar (digitsVal t)], r2)
  | _ =>
    let t := takeUpTo 32 charrefNameChar l
    if t.1 = [] then none
    else
      match t.2 with
      | ';' :: r => some (replaceNamed (t.1 ++ [';']), r)
      | _ => some (replaceNamed t.1, t.2)

/-- `html.unescape` on a character list, fuel-structured so that it reduces
definitionally (the fuel is always at least the input length plus one, see
`unescapeL`); scanning is left to right and replacement text is not
rescanned, as with `re.sub`. -/
def unescapeF : Nat → List Char → List Char
  | 0, _ => []
  | fuel + 1, l =>
    match l with
    | [] => []
    | c :: rest =>
      if c = '&' then
        match parseCharref rest with
        | some p => p.1 ++ unescapeF fuel p.2
        | none => '&' :: unescapeF fuel rest
      else c :: unescapeF fuel rest

/-- `html.unescape` on a character list. -/
def unescapeL (l : List Char) : List Char :=
  unescapeF (l.length + 1) l

/-- The whitespace-or-semicolon class `[\s;]` used by `goahead` to decide
whether a trailing ampersand may still grow into a character reference
(restricted to ASCII whitespace; the Python pattern also matches non-ASCII
unicode whitespace, which no input of this development contains). -/
def wsOrSemi (c : Char) : Bool :=
  c = ';' || c = ' ' || c = '\t' || c = '\n' || c = '\r' || c = '\x0b' || c = '\x0c'

/-- Suffix of `l` starting at its last `'&'`, if any. -/
def lastAmpSuffix : List Char → Option (List Char)
  | [] => none
  | c :: r =>
    match lastAmpSuffix r with
    | some s => some s
    | none => if c = '&' then some (c :: r) else none

/-- `goahead`'s wait-for-more-text test when no `'<'` remains: the last
`'&'` among the final 34 characters, not followed by whitespace or a
semicolon, makes the parser buffer the whole remaining chunk (and since
`HTMLTagRemover` is never `close()`d, that chunk is dropped). -/
def hasDanglingAmp (l : List Char) : Bool :=
  match lastAmpSuffix (l.drop (l.length - 34)) with
  | none => false
  | some s => !(s.any wsOrSemi)

/-- Outcome of dispatching on a `'<'`: drop the rest (incomplete construct
at end of input, never flushed since `close()` is never called), continue
after the construct, or treat the `'<'` as literal data. -/
inductive MarkupStep
  | drop
  | cont (rest : List Char)
  | lit (rest : List Char)

/-- Suffix just after the first `'>'`, if any. -/
def dropUntilGt : List Char → Option (List Char)
  | [] => none
  | c :: r => if c = '>' then some r else dropUntilGt r

/-- Suffix just after the first occurrence of `-->`, if any. -/
def dropPastCommentEnd : List Char → Option (List Char)
  | [] => none
  | c :: r =>
    if c = '-' then
      match r with
      | '-' :: '>' :: r2 => some r2
      | _ => dropPastCommentEnd r
    else dropPastCommentEnd r

/-- Dispatch of `HTMLParser.goahead` on the characters following a `'<'`:
a letter starts a tag (`parse_starttag`), `/` an end tag (`parse_endtag`),
`!--` a comment (`parse_comment`), other `!` a declaration or bogus comment,
`?` a processing instruction; any other character makes the `'<'` literal
data.  Tag, end-tag, declaration and PI parsing are modelled as scanning to
the first `'>'`, which agrees with the tolerant CPython parser on tags whose
attribute values contain no `'>'`, `'<'` or quote characters (the
well-formedness condition used by the theorems below); CDATA content
elements (`script`/`style`) and marked sections are outside the model. -/
def markupStep : List Char → MarkupStep
  | [] => .drop
  | c :: r =>
    if c.isAlpha then
      match dropUntilGt (c :: r) with
      | none => .drop
      | some s => .cont s
    else if c = '/' then
      match dropUntilGt r with
      | none => .drop
      | some s => .cont s
    else if c = '!' then
      match r with
      | '-' :: '-' :: r2 =>
        match dropPastCommentEnd r2 with
        | none => .drop
        | some s => .cont s
      | _ =>
        match dropUntilGt r with
        | none => .drop
        | some s => .cont s
    else if c = '?' then
      match dropUntilGt r with
      | none => .drop
      | some s => .cont s
    else .lit (c :: r)

/-- The scanning loop `HTMLParser.goahead` with `convert_charrefs=True`
outside CDATA mode, restricted as documented on `markupStep`, and collecting
exactly the concatenation of the `handle_data` arguments, which is what
`HTMLTagRemover.results` accumulates.  Fuel-structured; the fuel always
exceeds the input length (see `goahead`), so the `0` case is unreachable. -/
def goaheadF : Nat → List Char → List Char
  | 0, _ => []
  | fuel + 1, l =>
    match l.dropWhile (fun c => c ≠ '<') with
    | [] => if hasDanglingAmp l then [] else unescapeL l
    | _ :: r =>
      unescapeL (l.takeWhile (fun c => c ≠ '<')) ++
      (match markupStep r with
       | .drop => []
       | .cont s => goaheadF fuel s
       | .lit s => '<' :: goaheadF fuel s)

/-- `HTMLTagRemover` run on one `feed(html)` call: the concatenation of all
data chunks delivered by the parser. -/
def goahead (l : List Char) : List Char :=
  goaheadF (l.length + 1) l

/-- `SmuCalendarEvent._cleanhtml`: feed the raw body to an `HTMLTagRemover`
and return the accumulated `results`. -/
def cleanhtml (html : String) : String :=
  String.mk (goahead html.data)

/-! ## Dates (`datetime.strptime(s, "%Y-%m-%d")`, `max`, epoch arithmetic) -/

/-- A calendar date as produced by `datetime.strptime(s, "%Y-%m-%d")`
(the time-of-day components are all zero and are never consulted). -/
structure PyDate where
  year : Nat
  month : Nat
  day : Nat
deriving DecidableEq, Repr

/-- `datetime` comparison restricted to dates: lexicographic on
(year, month, day). -/
def PyDate.ltb (a b : PyDate) : Bool :=
  Nat.blt a.year b.year ||
    (Nat.beq a.year b.year &&
      (Nat.blt a.month b.month ||
        (Nat.beq a.month b.month && Nat.blt a.day b.day)))

def PyDate.leb (a b : PyDate) : Bool :=
  !(PyDate.ltb b a)

/-- Python `max(a, b)`: the second argument wins only when strictly
greater. -/
def pyMaxDate (a b : PyDate) : PyDate :=
  if PyDate.ltb a b then b else a

def isLeap (y : Nat) : Bool :=
  y % 4 = 0 && (y % 100 ≠ 0 || y % 400 = 0)

def daysInMonth (y m : Nat) : Nat :=
  if m = 2 then (if isLeap y then 29 else 28)
  else if m = 4 ∨ m = 6 ∨ m = 9 ∨ m = 11 then 30
  else 31

/-- Python `str.split("-")` on a character list. -/
def splitDash (l : List Char) : List (List Char) :=
  match l with
  | [] => [[]]
  | c :: r =>
    if c = '-' then [] :: splitDash r
    else
      match splitDash r with
      | [] => [[c]]
      | p :: ps => (c :: p) :: ps

/-- `SmuCalendarEvent._strptime`: `datetime.strptime(s, "%Y-%m-%d")`.
Faithful to the CPython `_strptime` regexes: `%Y` is exactly four digits,
`%m` one or two digits with value 1..12, `%d` one or two digits with value
1..31 further checked against the month length by the `datetime`
constructor; the whole string must be consumed; failure raises
`ValueError`. -/
def strptimeYmd (s : String) : Except PyErr PyDate :=
  match splitDash s.data with
  | [ys, ms, ds] =>
    if ys.length = 4 ∧ ys.all Char.isDigit ∧
        (ms.length = 1 ∨ ms.length = 2) ∧ ms.all Char.isDigit ∧
        (ds.length = 1 ∨ ds.length = 2) ∧ ds.all Char.isDigit then
      let y := digitsVal ys
      let m := digitsVal ms
      let d := digitsVal ds
      if 1 ≤ y ∧ 1 ≤ m ∧ m ≤ 12 ∧ 1 ≤ d ∧ d ≤ daysInMonth y m then
        .ok ⟨y, m, d⟩
      else .error .valueError
    else .error .valueError
  | _ => .error .valueError

/-- A `datetime`, represented by its offset in milliseconds from
1970-01-01T00:00:00 (naive); `timedelta` addition is exact on this
representation. -/
structure PyDateTime where
  msSinceEpoch : Int
deriving DecidableEq, Repr

/-- `SmuCalendarEvent._msptime`: `datetime(1970, 1, 1) +
timedelta(milliseconds=ms)`. -/
def msptime (ms : Int) : PyDateTime :=
  ⟨ms⟩

/-! ## The event model (`SmuCalendarEvent`) -/

/-- The `@dataclasses.dataclass` `SmuCalendarEvent`, with the thirteen raw
fields in source order. -/
structure SmuCalendarEvent where
  boardNo : String
  articleNo : Int
  articleTitle : String
  articleText : String
  createDt : Int
  orderDt : Int
  updateDt : Int
  etcChar4 : String
  etcChar5 : String
  etcChar6 : String
  etcChar7 : String
  etcChar8 : String
  etcChar9 : String
deriving DecidableEq, Repr

/-- The dataclass-generated `__eq__`: field-by-field comparison of all
thirteen fields (the decorator only synthesizes `__eq__`; the hand-written
`__hash__` below is left untouched because the class defines it
explicitly). -/
def pyEq (a b : SmuCalendarEvent) : Bool :=
  a.boardNo = b.boardNo && a.articleNo = b.articleNo &&
  a.articleTitle = b.articleTitle && a.articleText = b.articleText &&
  a.createDt = b.createDt && a.orderDt = b.orderDt &&
  a.updateDt = b.updateDt && a.etcChar4 = b.etcChar4 &&
  a.etcChar5 = b.etcChar5 && a.etcChar6 = b.etcChar6 &&
  a.etcChar7 = b.etcChar7 && a.etcChar8 = b.etcChar8 &&
  a.etcChar9 = b.etcChar9

/-- `SmuCalendarEvent.__hash__`: the article number. -/
def pyHash (e : SmuCalendarEvent) : Int :=
  e.articleNo

/-- Python `set.add` semantics: the element is added unless some existing
element compares equal under `__eq__` (the `__hash__` pre-filter is
consistent with `pyEq` — equal events share an article number — so set
membership is decided by `__eq__`).  Insertion order is kept to make the
model deterministic; the claims never depend on it. -/
def pySetAdd (s : List SmuCalendarEvent) (e : SmuCalendarEvent) : List SmuCalendarEvent :=
  if s.any (fun x => pyEq x e) then s else s ++ [e]

/-- Python `set.update(iterable)`. -/
def pySetUpdate (s : List SmuCalendarEvent) (l : List SmuCalendarEvent) : List SmuCalendarEvent :=
  l.foldl pySetAdd s

/-- Python `set(iterable)`. -/
def pySetOf (l : List SmuCalendarEvent) : List SmuCalendarEvent :=
  pySetUpdate [] l

/-- The `ics.Event` constructed by `SmuCalendarEvent.to_ics`, at the level
of the fields the source sets: uid, name, description, begin, end (field
`endDate` since `end` is reserved in Lean), created, last_modified, url,
and the all-day flag set by `event.make_all_day()` (begin and end are
midnight datetimes, so the day-flooring performed by `make_all_day` is the
identity on them). -/
structure IcsEvent where
  uid : String
  name : String
  description : String
  begin : PyDate
  endDate : PyDate
  created : PyDateTime
  lastModified : PyDateTime
  url : String
  allDay : Bool
deriving DecidableEq, Repr

/-- `SmuCalendarEvent.to_ics`: parse the two date strings (a failure raises
`ValueError` out of the method), force the end to `max(begin, end)`, strip
the HTML body, convert the millisecond timestamps, build the deep-link URL
and mark the event all-day. -/
def SmuCalendarEvent.to_ics (e : SmuCalendarEvent) : Except PyErr IcsEvent := do
  let b ← strptimeYmd e.etcChar6
  let e7 ← strptimeYmd e.etcChar7
  pure
    { uid := toString e.articleNo
      name := e.articleTitle
      description := cleanhtml e.articleText
      begin := b
      endDate := pyMaxDate b e7
      created := msptime e.createDt
      lastModified := msptime e.updateDt
      url := "https://www.smu.ac.kr/kor/life/academicCalendar.do?mode=view&articleNo=" ++
        toString e.articleNo ++ "&boardNo=" ++ e.boardNo
      allDay := true }

/-! ## The crawler (`SmuCalendarCrawler`) -/

/-- JSON values as returned by `response.json()`. -/
inductive JVal
  | null
  | bool (b : Bool)
  | num (n : Int)
  | str (s : String)
  | arr (l : List JVal)
  | obj (d : List (String × JVal))

/-- A parsed JSON object (`Dict[str, Any]`): keys are unique in a Python
dict, so first-match lookup is faithful. -/
abbrev PyDict := List (String × JVal)

def jlookup (d : PyDict) (k : String) : Option JVal :=
  match d with
  | [] => none
  | (k', v) :: r => if k' = k then some v else jlookup r k

/-- Python `d[k]`: `KeyError` when the key is absent. -/
def dictGet (d : PyDict) (k : String) : Except PyErr JVal :=
  match jlookup d k with
  | some v => .ok v
  | none => .error .keyError

/-- Python `assert`: `AssertionError` when the condition is false. -/
def pyAssert (b : Bool) : Except PyErr Unit :=
  if b then .ok () else .error .assertionError

/-- `json['success'] is True`: only the JSON boolean `true` passes. -/
def JVal.isTrue : JVal → Bool
  | .bool true => true
  | _ => false

/-- `isinstance(json['list'], list)`: only a JSON array passes. -/
def JVal.isList : JVal → Bool
  | .arr _ => true
  | _ => false

/-- `SmuCalendarCrawler._validate`: assert the success flag is the boolean
`True` and the `list` field is a list (a missing key raises `KeyError`,
a present key with the wrong value raises `AssertionError`; either way the
call fails). -/
def SmuCalendarCrawler.validate (d : PyDict) : Except PyErr Unit := do
  let s ← dictGet d "success"
  pyAssert s.isTrue
  let l ← dictGet d "list"
  pyAssert l.isList

/-- `item[k]` followed by use as a string field.  The dataclass stores
values untyped, so CPython performs no type check here; the embedding types
the fields, and the theorems below assume schema-typed values, under which
the `typeError` branch never fires. -/
def getStrField (d : PyDict) (k : String) : Except PyErr String := do
  match ← dictGet d k with
  | .str s => pure s
  | _ => .error .typeError

/-- `item[k]` followed by use as an integer field (see `getStrField`). -/
def getIntField (d : PyDict) (k : String) : Except PyErr Int := do
  match ← dictGet d k with
  | .num n => pure n
  | _ => .error .typeError

/-- One record of `json['list']` turned into a `SmuCalendarEvent` by
`SmuCalendarCrawler._deserialize`: the thirteen fields are read by exact
key name, in the source's keyword-argument order, and a missing key raises
`KeyError` (the spec's SchemaError). -/
def deserializeItem (item : JVal) : Except PyErr SmuCalendarEvent := do
  match item with
  | .obj d =>
    let boardNo ← getStrField d "boardNo"
    let articleNo ← getIntField d "articleNo"
    let articleTitle ← getStrField d "articleTitle"
    let articleText ← getStrField d "articleText"
    let createDt ← getIntField d "createDt"
    let orderDt ← getIntField d "orderDt"
    let updateDt ← getIntField d "updateDt"
    let etcChar4 ← getStrField d "etcChar4"
    let etcChar5 ← getStrField d "etcChar5"
    let etcChar6 ← getStrField d "etcChar6"
    let etcChar7 ← getStrField d "etcChar7"
    let etcChar8 ← getStrField d "etcChar8"
    let etcChar9 ← getStrField d "etcChar9"
    pure
      { boardNo, articleNo, articleTitle, articleText, createDt, orderDt,
        updateDt, etcChar4, etcChar5, etcChar6, etcChar7, etcChar8, etcChar9 }
  | _ => .error .typeError

/-- `SmuCalendarCrawler._deserialize` over the whole `list` field; the
generator is fully consumed by `set(...)` inside `get_events`, so the first
failing record's exception is the call's exception. -/
def deserializeList (l : List JVal) : Except PyErr (List SmuCalendarEvent) :=
  match l with
  | [] => .ok []
  | j :: r =>
    match deserializeItem j with
    | .error er => .error er
    | .ok ev =>
      match deserializeList r with
      | .error er => .error er
      | .ok evs => .ok (ev :: evs)

/-- Does the record have all thirteen required keys? -/
def hasAllKeys (item : JVal) : Bool :=
  match item with
  | .obj d =>
    (jlookup d "boardNo").isSome && (jlookup d "articleNo").isSome &&
    (jlookup d "articleTitle").isSome && (jlookup d "articleText").isSome &&
    (jlookup d "createDt").isSome && (jlookup d "orderDt").isSome &&
    (jlookup d "updateDt").isSome && (jlookup d "etcChar4").isSome &&
    (jlookup d "etcChar5").isSome && (jlookup d "etcChar6").isSome &&
    (jlookup d "etcChar7").isSome && (jlookup d "etcChar8").isSome &&
    (jlookup d "etcChar9").isSome
  | _ => false

/-- Is a present key's value of the schema type expected for it? -/
def fieldTypedStr (d : PyDict) (k : String) : Bool :=
  match jlookup d k with
  | none => true
  | some (.str _) => true
  | some _ => false

def fieldTypedInt (d : PyDict) (k : String) : Bool :=
  match jlookup d k with
  | none => true
  | some (.num _) => true
  | some _ => false

/-- A record is schema-typed when it is an object and every present field
among the thirteen has its schema type (string, or integer for the
`articleNo`/`createDt`/`orderDt`/`updateDt` fields). -/
def itemWellTyped (item : JVal) : Bool :=
  match item with
  | .obj d =>
    fieldTypedStr d "boardNo" && fieldTypedInt d "articleNo" &&
    fieldTypedStr d "articleTitle" && fieldTypedStr d "articleText" &&
    fieldTypedInt d "createDt" && fieldTypedInt d "orderDt" &&
    fieldTypedInt d "updateDt" && fieldTypedStr d "etcChar4" &&
    fieldTypedStr d "etcChar5" && fieldTypedStr d "etcChar6" &&
    fieldTypedStr d "etcChar7" && fieldTypedStr d "etcChar8" &&
    fieldTypedStr d "etcChar9"
  | _ => false

/-! ## The orchestrator (`fetch_events` and `main`) -/

/-- Severities used by the orchestrator's log lines. -/
inductive LogLevel
  | info
  | warning
  | error
deriving DecidableEq, Repr

/-- Which log line of a year's attempt. -/
inductive LogTag
  | start
  | success
  | failure
deriving DecidableEq, Repr

structure LogEntry where
  level : LogLevel
  year : Int
  tag : LogTag
deriving DecidableEq, Repr

/-- The crawler as seen by the orchestrator: `crawler.get_events(year)`
either returns the year's records (already collected into a set by
`get_events`; the list is that set's contents) or raises. -/
abbrev Crawl := Int → Except PyErr (List SmuCalendarEvent)

/-- `TARGET_YEARS`: current year minus one through plus one. -/
def targetYears (cy : Int) : List Int :=
  [cy - 1, cy, cy + 1]

/-- `ADDITIONAL_TARGET_YEARS`: three best-effort years. -/
def additionalTargetYears (cy : Int) : List Int :=
  [cy - 3, cy - 2, cy + 2]

/-- One loop iteration of `fetch_events`: log the start line, call the
crawler inside `try`, and either log the failure at the loop's severity
(leaving the accumulated set untouched) or update the set and log
success. -/
def yearStep (get : Crawl) (failLevel : LogLevel)
    (st : List SmuCalendarEvent × List LogEntry) (y : Int) :
    List SmuCalendarEvent × List LogEntry :=
  let log := st.2 ++ [⟨.info, y, .start⟩]
  match get y with
  | .error _ => (st.1, log ++ [⟨failLevel, y, .failure⟩])
  | .ok evs => (pySetUpdate st.1 evs, log ++ [⟨.info, y, .success⟩])

/-- `fetch_events`: the primary loop (failures logged as errors) followed by
the additional loop (failures logged as warnings), accumulating one
deduplicated event set; returns the set together with the log. -/
def fetch_events (cy : Int) (get : Crawl) :
    List SmuCalendarEvent × List LogEntry :=
  (additionalTargetYears cy).foldl (yearStep get .warning)
    ((targetYears cy).foldl (yearStep get .error) ([], []))

/-- Insertion of an event into a list sorted by article number
(`sorted(events)` uses `SmuCalendarEvent.__lt__`, which compares article
numbers; the order among equal article numbers is set-iteration dependent in
Python and is fixed arbitrarily here — no claim depends on it). -/
def insertByNo (e : SmuCalendarEvent) : List SmuCalendarEvent → List SmuCalendarEvent
  | [] => [e]
  | x :: r => if e.articleNo ≤ x.articleNo then e :: x :: r else x :: insertByNo e r

/-- `sorted(events)` by article number. -/
def sortEvents : List SmuCalendarEvent → List SmuCalendarEvent
  | [] => []
  | e :: r => insertByNo e (sortEvents r)

/-- `ICS_AUTHOR`, the calendar's creator attribution string. -/
def ICS_AUTHOR : String :=
  "상명대학교<@smu.ac.kr>, 김동주<hepheir@gmail.com>"

/-- The produced calendar document: the creator string and the events in the
order `main` adds them (the file write itself is an external I/O
collaborator). -/
structure IcsCalendar where
  creator : String
  events : List IcsEvent
deriving DecidableEq, Repr

/-- The conversion loop of `main`: `for evt in sorted(events):
icalendar.events.add(evt.to_ics())`; the first `to_ics` failure raises out
of `main` (there is no handler around this loop). -/
def convertAll : List SmuCalendarEvent → Except PyErr (List IcsEvent)
  | [] => .ok []
  | e :: r =>
    match e.to_ics with
    | .error er => .error er
    | .ok out =>
      match convertAll r with
      | .error er => .error er
      | .ok outs => .ok (out :: outs)

/-- The source's `main` (named `mainRun` here because `main` is reserved for
executables): aggregate events over all target years, sort, convert each to
an ics event and produce the calendar document.  An `.ok` result models the
process completing normally (exit code 0) and writing the document; an
`.error` models an uncaught exception terminating the run. -/
def mainRun (cy : Int) (get : Crawl) : Except PyErr IcsCalendar :=
  match convertAll (sortEvents (fetch_events cy get).1) with
  | .error er => .error er
  | .ok outs => .ok ⟨ICS_AUTHOR, outs⟩

/-- Article numbers in the order the events are emitted into the output
document. -/
def outputOrderKeys (cy : Int) (get : Crawl) : List Int :=
  (sortEvents (fetch_events cy get).1).map (fun e => e.articleNo)

/-- `SmuCalendarEvent.__lt__` lifted to the non-strict comparison the sorted
output satisfies. -/
def evLe (a b : SmuCalendarEvent) : Prop :=
  a.articleNo ≤ b.articleNo

/-! ## Abstract HTML documents (specification side for the extractor claim)

`HItem` is the flat stream of markup constructs of an HTML document with its
text held literally (nesting is irrelevant to the extractor, which only
concatenates data).  `renderItems` produces the HTML string for such a
stream, escaping text through the four named entities; `textsOf` is its
text-node content.  The well-formedness predicate `wfItems` delimits the
fragment on which the modelled stdlib parser provably recovers exactly the
text content. -/

/-- HTML-escape one text character (`&`, `<`, `>`, `"` become named
character references). -/
def escapeChar (c : Char) : List Char :=
  if c = '&' then ['&', 'a', 'm', 'p', ';']
  else if c = '<' then ['&', 'l', 't', ';']
  else if c = '>' then ['&', 'g', 't', ';']
  else if c = '"' then ['&', 'q', 'u', 'o', 't', ';']
  else [c]

/-- HTML-escape a text node. -/
def escapeText (l : List Char) : List Char :=
  (l.map escapeChar).flatten

/-- One construct of a flattened HTML document: a text node, a start tag
with attributes, an end tag, or a comment. -/
inductive HItem
  | textN (t : List Char)
  | openTag (tag : List Char) (attrs : List (List Char × List Char))
  | closeTag (tag : List Char)
  | commentN (s : List Char)

def isTextItem : HItem → Bool
  | .textN _ => true
  | _ => false

def renderAttr (a : List Char × List Char) : List Char :=
  ' ' :: (a.1 ++ '=' :: '"' :: (a.2 ++ ['"']))

def renderAttrs (attrs : List (List Char × List Char)) : List Char :=
  (attrs.map renderAttr).flatten

/-- The characters of a markup construct after its opening `'<'`
(empty for text nodes, which do not start with `'<'`). -/
def tagBody : HItem → List Char
  | .textN _ => []
  | .openTag tag attrs => tag ++ renderAttrs attrs ++ ['>']
  | .closeTag tag => '/' :: (tag ++ ['>'])
  | .commentN s => '!' :: '-' :: '-' :: (s ++ ['-', '-', '>'])

def renderItem : HItem → List Char
  | .textN t => escapeText t
  | it => '<' :: tagBody it

def renderItems (l : List HItem) : List Char :=
  (l.map renderItem).flatten

def textOf : HItem → List Char
  | .textN t => t
  | _ => []

/-- The text-node content of a document: the concatenation of its text
nodes. -/
def textsOf (l : List HItem) : List Char :=
  (l.map textOf).flatten

/-- A usable tag name: nonempty, ASCII letters only, and not one of the
CDATA content elements (`script`/`style`), which switch the stdlib parser
into a mode outside this model. -/
def tagOk (tag : List Char) : Bool :=
  !tag.isEmpty && tag.all (fun c => c.isAlpha) &&
  tag.map Char.toLower ≠ ['s', 'c', 'r', 'i', 'p', 't'] &&
  tag.map Char.toLower ≠ ['s', 't', 'y', 'l', 'e']

/-- A usable attribute: letter-only name, and a double-quoted value without
`'>'`, `'<'`, `'"'` or `'&'` (so the tag ends at its first `'>'`, as the
modelled parser assumes). -/
def attrOk (a : List Char × List Char) : Bool :=
  !a.1.isEmpty && a.1.all (fun c => c.isAlpha) &&
  a.2.all (fun c => !(c = '>' || c = '<' || c = '"' || c = '&'))

def wfItem : HItem → Bool
  | .textN _ => true
  | .openTag tag attrs => tagOk tag && attrs.all attrOk
  | .closeTag tag => tagOk tag
  | .commentN s => s.all (fun c => c ≠ '-')

/-- No two adjacent text nodes (adjacent text merges into one data chunk;
requiring the flattening to merge them keeps the induction simple without
losing any document). -/
def noAdjTexts : List HItem → Bool
  | .textN _ :: .textN _ :: _ => false
  | _ :: r => noAdjTexts r
  | [] => true

def wfItems (l : List HItem) : Bool :=
  l.all wfItem && noAdjTexts l

/-- Every `'&'` of the list is followed, somewhere to its right, by a
`';'` (true of any HTML-escaped text, and sufficient for the parser's
trailing-ampersand buffering test never to fire). -/
def ampClosed : List Char → Bool
  | [] => true
  | c :: r => (if c = '&' then r.any (fun x => x = ';') else true) && ampClosed r

/-- The spec's worked example, `<div><p>Hello &amp; welcome</p></div>`, as
an abstract document. -/
def exDoc : List HItem :=
  [.openTag ['d', 'i', 'v'] [], .openTag ['p'] [],
   .textN ['H', 'e', 'l', 'l', 'o', ' ', '&', ' ', 'w', 'e', 'l', 'c', 'o', 'm', 'e'],
   .closeTag ['p'], .closeTag ['d', 'i', 'v']]

/-! ## Concrete instances used by witnesses and counterexamples -/

/-- Two raw records sharing article number 42 and differing only in their
title. -/
def dupA : SmuCalendarEvent :=
  ⟨"85", 42, "A", "x", 0, 0, 0, "2024", "first_term", "2024-01-02", "2024-01-03", "bachelor", "seoul"⟩

def dupB : SmuCalendarEvent :=
  ⟨"85", 42, "B", "x", 0, 0, 0, "2024", "first_term", "2024-01-02", "2024-01-03", "bachelor", "seoul"⟩

/-- A crawler whose 2024 batch contains the two records above and which
fails for every other year. -/
def getDup : Crawl := fun y =>
  if y = 2024 then .ok [dupA, dupB] else .error .assertionError

/-- A record whose start-date string does not parse. -/
def badEvent : SmuCalendarEvent :=
  ⟨"85", 7, "bad", "x", 0, 0, 0, "2024", "first_term", "oops", "2024-01-03", "bachelor", "seoul"⟩

/-- A crawler delivering the unparseable record for 2024. -/
def getBad : Crawl := fun y =>
  if y = 2024 then .ok [badEvent] else .error .assertionError

/-- The spec's §8 example record: start `2024-03-01`, end `2024-02-28`. -/
def exEvent : SmuCalendarEvent :=
  ⟨"85", 100, "t", "x", 0, 0, 0, "2024", "first_term", "2024-03-01", "2024-02-28", "bachelor", "seoul"⟩

/-- A crawler that fails for every year. -/
def getNone : Crawl := fun _ => .error .assertionError

/-- A crawler failing exactly for 2024 (a primary year of a 2025 run) and
2022 (an additional year of a 2025 run). -/
def getOneFail : Crawl := fun y =>
  if y = 2024 ∨ y = 2022 then .error .typeError else .ok []

/-- The converted form of `dupA`. -/
def outDupA : IcsEvent :=
  ⟨"42", "A", "x", ⟨2024, 1, 2⟩, ⟨2024, 1, 3⟩, ⟨0⟩, ⟨0⟩,
    "https://www.smu.ac.kr/kor/life/academicCalendar.do?mode=view&articleNo=42&boardNo=85", true⟩

/-- The converted form of `dupB`. -/
def outDupB : IcsEvent :=
  ⟨"42", "B", "x", ⟨2024, 1, 2⟩, ⟨2024, 1, 3⟩, ⟨0⟩, ⟨0⟩,
    "https://www.smu.ac.kr/kor/life/academicCalendar.do?mode=view&articleNo=42&boardNo=85", true⟩

/-- The document produced by a 2025 run against `getDup`. -/
def calDup : IcsCalendar :=
  ⟨ICS_AUTHOR, [outDupA, outDupB]⟩

/-- A fully-populated record of `json['list']`. -/
def goodItem : JVal :=
  .obj [("boardNo", .str "85"), ("articleNo", .num 1), ("articleTitle", .str "t"),
    ("articleText", .str "x"), ("createDt", .num 0), ("orderDt", .num 0),
    ("updateDt", .num 0), ("etcChar4", .str "2024"), ("etcChar5", .str "first_term"),
    ("etcChar6", .str "2024-01-01"), ("etcChar7", .str "2024-01-02"),
    ("etcChar8", .str "bachelor"), ("etcChar9", .str "seoul")]

/-- The same record without its `articleNo` key. -/
def missingItem : JVal :=
  .obj [("boardNo", .str "85"), ("articleTitle", .str "t"),
    ("articleText", .str "x"), ("createDt", .num 0), ("orderDt", .num 0),
    ("updateDt", .num 0), ("etcChar4", .str "2024"), ("etcChar5", .str "first_term"),
    ("etcChar6", .str "2024-01-01"), ("etcChar7", .str "2024-01-02"),
    ("etcChar8", .str "bachelor"), ("etcChar9", .str "seoul")]

/-- Two events agreeing on the eight used fields and differing in all five
unused ones. -/
def c10a : SmuCalendarEvent :=
  ⟨"85", 7, "t", "b", 1, 100, 2, "2024", "x", "2024-01-01", "2024-01-02", "bachelor", "seoul"⟩

def c10b : SmuCalendarEvent :=
  ⟨"85", 7, "t", "b", 1, 999, 2, "zz", "y", "2024-01-01", "2024-01-02", "master", "cheonan"⟩

/-- The effect of one year on the accumulated event set alone (the log
component of `yearStep` does not feed back into the events). -/
def evStep (get : Crawl) (acc : List SmuCalendarEvent) (y : Int) :
    List SmuCalendarEvent :=
  match get y with
  | .error _ => acc
  | .ok evs => pySetUpdate acc evs

/-- The crawler of `getOneFail` with its 2024 failure replaced by an empty
success. -/
def getOneFailSkip : Crawl := fun z =>
  if z = 2024 then .ok [] else getOneFail z

/-! ## Date comparison lemmas -/

theorem PyDate.ltb_iff (a b : PyDate) :
    PyDate.ltb a b = true ↔
      (a.year < b.year ∨ (a.year = b.year ∧
        (a.month < b.month ∨ (a.month = b.month ∧ a.day < b.day)))) := by
  simp [PyDate.ltb, Nat.blt_eq, Nat.beq_eq_true_eq]

theorem PyDate.ltb_asymm {a b : PyDate} (h : PyDate.ltb a b = true) :
    PyDate.ltb b a = false := by
  rw [PyDate.ltb_iff] at h
  cases hba : PyDate.ltb b a with
  | false => rfl
  | true =>
    rw [PyDate.ltb_iff] at hba
    omega

theorem PyDate.ltb_irrefl (a : PyDate) : PyDate.ltb a a = false := by
  cases haa : PyDate.ltb a a with
  | false => rfl
  | true =>
    rw [PyDate.ltb_iff] at haa
    omega

theorem pyDate_leb_max_left (a b : PyDate) :
    PyDate.leb a (pyMaxDate a b) = true := by
  unfold pyMaxDate
  split
  · rename_i h
    unfold PyDate.leb
    rw [PyDate.ltb_asymm h]
    rfl
  · unfold PyDate.leb
    rw [PyDate.ltb_irrefl]
    rfl

/-! ## C2: end-date normalization -/

/-- C2: for every `CalendarEvent` whose start (`etcChar6`) and end
(`etcChar7`) strings both parse as `YYYY-MM-DD` dates, `to_ics` succeeds and
the output event's end date equals `max(parsed start, parsed end)`; its
begin is the parsed start, and consequently end ≥ start holds — also when
the raw end precedes the raw start (inverted ranges become single-day). -/
theorem c2_end_is_max_of_start_end (e : SmuCalendarEvent) (b e7 : PyDate)
    (h6 : strptimeYmd e.etcChar6 = .ok b) (h7 : strptimeYmd e.etcChar7 = .ok e7) :
    ∃ out, e.to_ics = .ok out ∧ out.begin = b ∧ out.endDate = pyMaxDate b e7 ∧
      PyDate.leb out.begin out.endDate = true := by
  unfold SmuCalendarEvent.to_ics
  rw [h6, h7]
  exact ⟨_, rfl, rfl, rfl, pyDate_leb_max_left b e7⟩

/-- Witness for C2 at the spec's §8 example: start `2024-03-01`, end
`2024-02-28`; the later date wins, so the output is a single-day event. -/
theorem c2_witness :
    ∃ out, exEvent.to_ics = .ok out ∧ out.begin = ⟨2024, 3, 1⟩ ∧
      out.endDate = pyMaxDate ⟨2024, 3, 1⟩ ⟨2024, 2, 28⟩ ∧
      PyDate.leb out.begin out.endDate = true :=
  c2_end_is_max_of_start_end exEvent ⟨2024, 3, 1⟩ ⟨2024, 2, 28⟩ (by rfl) (by rfl)

/-! ## C10: fields the conversion depends on -/

/-- C10: `to_ics` depends only on `boardNo`, `articleNo`, `articleTitle`,
`articleText`, `createDt`, `updateDt`, `etcChar6` and `etcChar7`: two events
agreeing on these eight fields convert to identical output events, whatever
their `orderDt`, `etcChar4`, `etcChar5`, `etcChar8`, `etcChar9`. -/
theorem c10_to_ics_depends_only_on_used_fields (a b : SmuCalendarEvent)
    (h1 : a.boardNo = b.boardNo) (h2 : a.articleNo = b.articleNo)
    (h3 : a.articleTitle = b.articleTitle) (h4 : a.articleText = b.articleText)
    (h5 : a.createDt = b.createDt) (h6 : a.updateDt = b.updateDt)
    (h7 : a.etcChar6 = b.etcChar6) (h8 : a.etcChar7 = b.etcChar7) :
    a.to_ics = b.to_ics := by
  unfold SmuCalendarEvent.to_ics
  rw [h1, h2, h3, h4, h5, h6, h7, h8]

/-- Witness for C10. -/
theorem c10_witness : c10a.to_ics = c10b.to_ics :=
  c10_to_ics_depends_only_on_used_fields c10a c10b rfl rfl rfl rfl rfl rfl rfl rfl

/-! ## C1: identity by article number -/

/-- C1 (code bug): aggregation does NOT keep exactly one of two events that
share an article number but differ elsewhere.  The dataclass decorator
generates `__eq__` over all thirteen fields while the hand-written
`__hash__` uses only `articleNo`, so Python `set` insertion treats `dupA`
and `dupB` — same article number 42, hash-equal, different titles — as
distinct and keeps both. -/
theorem c1_dedup_by_article_number_fails :
    dupA.articleNo = dupB.articleNo ∧ pyHash dupA = pyHash dupB ∧
    dupA ≠ dupB ∧ pySetOf [dupA, dupB] = [dupA, dupB] := by
  refine ⟨rfl, rfl, by decide, rfl⟩

/-! ## C6: response validation -/

/-- C6: `_validate` succeeds exactly when the parsed response has a
top-level success flag equal to the boolean `true` and a `list` field
holding a (possibly empty) sequence; in every other case the call raises
(`KeyError` for a missing key, `AssertionError` otherwise — the spec's
ProtocolError). -/
theorem c6_validate_iff_success_and_list (d : PyDict) :
    SmuCalendarCrawler.validate d = .ok () ↔
      (jlookup d "success" = some (JVal.bool true) ∧
        ∃ l, jlookup d "list" = some (JVal.arr l)) := by
  unfold SmuCalendarCrawler.validate dictGet pyAssert
  cases hs : jlookup d "success" with
  | none => simp [Bind.bind, Except.bind]
  | some v =>
    cases v with
    | bool b =>
      cases b with
      | false => simp [Bind.bind, Except.bind, JVal.isTrue]
      | true =>
        cases hl : jlookup d "list" with
        | none => simp [Bind.bind, Except.bind, JVal.isTrue]
        | some w =>
          cases w <;> simp [Bind.bind, Except.bind, JVal.isTrue, JVal.isList]
    | null => simp [Bind.bind, Except.bind, JVal.isTrue]
    | num n => simp [Bind.bind, Except.bind, JVal.isTrue]
    | str s => simp [Bind.bind, Except.bind, JVal.isTrue]
    | arr l => simp [Bind.bind, Except.bind, JVal.isTrue]
    | obj o => simp [Bind.bind, Except.bind, JVal.isTrue]

/-! ## Orchestrator lemmas -/

theorem yearStep_fst (get : Crawl) (lvl : LogLevel)
    (st : List SmuCalendarEvent × List LogEntry) (y : Int) :
    (yearStep get lvl st y).1 = evStep get st.1 y := by
  unfold yearStep evStep
  cases get y <;> rfl

theorem foldl_yearStep_fst (get : Crawl) (lvl : LogLevel) (ys : List Int)
    (st : List SmuCalendarEvent × List LogEntry) :
    (ys.foldl (yearStep get lvl) st).1 = ys.foldl (evStep get) st.1 := by
  induction ys generalizing st with
  | nil => rfl
  | cons y r ih =>
    rw [List.foldl_cons, List.foldl_cons, ih, yearStep_fst]

/-- The aggregated event set of a run, independent of the log. -/
theorem fetch_events_fst (cy : Int) (get : Crawl) :
    (fetch_events cy get).1 =
      (additionalTargetYears cy).foldl (evStep get)
        ((targetYears cy).foldl (evStep get) []) := by
  unfold fetch_events
  rw [foldl_yearStep_fst, foldl_yearStep_fst]

theorem foldl_log_mono (get : Crawl) (lvl : LogLevel) (ys : List Int)
    (st : List SmuCalendarEvent × List LogEntry) (e : LogEntry) (h : e ∈ st.2) :
    e ∈ (ys.foldl (yearStep get lvl) st).2 := by
  induction ys generalizing st with
  | nil => exact h
  | cons y r ih =>
    rw [List.foldl_cons]
    refine ih _ ?_
    unfold yearStep
    cases get y <;>
      exact List.mem_append_left _ (List.mem_append_left _ h)

theorem foldl_log_failure (get : Crawl) (lvl : LogLevel) (ys : List Int)
    (st : List SmuCalendarEvent × List LogEntry) (y : Int) (er : PyErr)
    (hy : y ∈ ys) (her : get y = .error er) :
    (⟨lvl, y, .failure⟩ : LogEntry) ∈ (ys.foldl (yearStep get lvl) st).2 := by
  induction ys generalizing st with
  | nil => cases hy
  | cons z r ih =>
    rw [List.foldl_cons]
    rcases List.mem_cons.1 hy with hz | hz
    · subst hz
      refine foldl_log_mono _ _ _ _ _ ?_
      unfold yearStep
      rw [her]
      exact List.mem_append_right _ (List.mem_singleton_self _)
    · exact ih _ hz

theorem pySetUpdate_nil (acc : List SmuCalendarEvent) :
    pySetUpdate acc [] = acc := rfl

theorem evStep_replace (get : Crawl) (y : Int) (er : PyErr)
    (h : get y = .error er) :
    evStep (fun z => if z = y then .ok [] else get z) = evStep get := by
  funext acc z
  unfold evStep
  by_cases hz : z = y
  · subst hz
    rw [h]
    simp [pySetUpdate_nil]
  · simp [hz]

/-! ## C3: per-year failure isolation -/

/-- C3: a year whose crawl raises is caught at the per-year loop boundary:
the run goes on, the year is logged as failed — at error severity when it is
a primary year, warning severity when it is an additional year — and the
aggregated event set is exactly what it would have been had that year
(successfully) contributed no events, so other years' events are
unaffected. -/
theorem c3_failed_year_logged_and_isolated (cy : Int) (get : Crawl) (y : Int)
    (er : PyErr) (h : get y = .error er) :
    (y ∈ targetYears cy →
      (⟨.error, y, .failure⟩ : LogEntry) ∈ (fetch_events cy get).2) ∧
    (y ∈ additionalTargetYears cy →
      (⟨.warning, y, .failure⟩ : LogEntry) ∈ (fetch_events cy get).2) ∧
    (fetch_events cy get).1 =
      (fetch_events cy (fun z => if z = y then .ok [] else get z)).1 := by
  refine ⟨?_, ?_, ?_⟩
  · intro hy
    unfold fetch_events
    exact foldl_log_mono _ _ _ _ _ (foldl_log_failure _ _ _ _ _ _ hy h)
  · intro hy
    unfold fetch_events
    exact foldl_log_failure _ _ _ _ _ _ hy h
  · rw [fetch_events_fst, fetch_events_fst, evStep_replace get y er h]

/-- Witness for C3 on a 2025 run: 2024 (primary) is logged at error
severity, 2022 (additional) at warning severity, and the aggregate equals
the one where 2024 contributes nothing. -/
theorem c3_witness :
    (⟨LogLevel.error, 2024, LogTag.failure⟩ : LogEntry) ∈ (fetch_events 2025 getOneFail).2 ∧
    (⟨LogLevel.warning, 2022, LogTag.failure⟩ : LogEntry) ∈ (fetch_events 2025 getOneFail).2 ∧
    (fetch_events 2025 getOneFail).1 = (fetch_events 2025 getOneFailSkip).1 :=
  ⟨(c3_failed_year_logged_and_isolated 2025 getOneFail 2024 .typeError (by rfl)).1 (by decide),
   (c3_failed_year_logged_and_isolated 2025 getOneFail 2022 .typeError (by rfl)).2.1 (by decide),
   (c3_failed_year_logged_and_isolated 2025 getOneFail 2024 .typeError (by rfl)).2.2⟩

/-! ## C8: all years failing still completes with an empty document -/

theorem foldl_evStep_allfail (get : Crawl) (ys : List Int)
    (acc : List SmuCalendarEvent) (h : ∀ y ∈ ys, ∃ er, get y = .error er) :
    ys.foldl (evStep get) acc = acc := by
  induction ys generalizing acc with
  | nil => rfl
  | cons y r ih =>
    rw [List.foldl_cons]
    obtain ⟨er, her⟩ := h y (List.mem_cons_self _ _)
    have hstep : evStep get acc y = acc := by
      unfold evStep
      rw [her]
    rw [hstep]
    exact ih _ (fun z hz => h z (List.mem_cons_of_mem _ hz))

/-- C8: when the crawl of every target year (primary and additional) raises,
the run still completes normally (exit code 0) and produces the calendar
document with the creator attribution and zero events. -/
theorem c8_all_fail_empty_document (cy : Int) (get : Crawl)
    (h : ∀ y, (y ∈ targetYears cy ∨ y ∈ additionalTargetYears cy) →
      ∃ er, get y = .error er) :
    mainRun cy get = .ok ⟨ICS_AUTHOR, []⟩ := by
  have hev : (fetch_events cy get).1 = [] := by
    rw [fetch_events_fst,
      foldl_evStep_allfail get _ _ (fun y hy => h y (Or.inl hy)),
      foldl_evStep_allfail get _ _ (fun y hy => h y (Or.inr hy))]
  unfold mainRun
  rw [hev]
  rfl

/-- Witness for C8 with a crawler failing for every year of a 2030 run. -/
theorem c8_witness : mainRun 2030 getNone = .ok ⟨ICS_AUTHOR, []⟩ :=
  c8_all_fail_empty_document 2030 getNone (fun _ _ => ⟨.assertionError, rfl⟩)

/-! ## Sorting and conversion lemmas -/

theorem mem_insertByNo {e x : SmuCalendarEvent} {l : List SmuCalendarEvent}
    (h : x ∈ l ∨ x = e) : x ∈ insertByNo e l := by
  induction l with
  | nil =>
    rcases h with h | h
    · cases h
    · subst h; exact List.mem_singleton_self _
  | cons y r ih =>
    unfold insertByNo
    split
    · rcases h with h | h
      · exact List.mem_cons_of_mem _ h
      · subst h; exact List.mem_cons_self _ _
    · rcases h with h | h
      · rcases List.mem_cons.1 h with h | h
        · subst h; exact List.mem_cons_self _ _
        · exact List.mem_cons_of_mem _ (ih (Or.inl h))
      · exact List.mem_cons_of_mem _ (ih (Or.inr h))

theorem mem_sortEvents {e : SmuCalendarEvent} {l : List SmuCalendarEvent}
    (h : e ∈ l) : e ∈ sortEvents l := by
  induction l with
  | nil => cases h
  | cons x r ih =>
    unfold sortEvents
    rcases List.mem_cons.1 h with h | h
    · exact mem_insertByNo (Or.inr h)
    · exact mem_insertByNo (Or.inl (ih h))

theorem chain_insertByNo (e : SmuCalendarEvent) (l : List SmuCalendarEvent)
    (h : List.Chain' evLe l) : List.Chain' evLe (insertByNo e l) := by
  induction l with
  | nil => simp [insertByNo]
  | cons x r ih =>
    unfold insertByNo
    split
    · rename_i hle
      exact List.Chain'.cons hle h
    · rename_i hgt
      have hxe : evLe x e := by
        unfold evLe
        omega
      have hr : List.Chain' evLe r := h.tail
      have hins := ih hr
      rw [List.chain'_cons']
      refine ⟨?_, hins⟩
      intro z hz
      cases r with
      | nil =>
        simp [insertByNo] at hz
        subst hz
        exact hxe
      | cons y r2 =>
        unfold insertByNo at hz
        split at hz
        · simp at hz
          subst hz
          exact hxe
        · simp at hz
          subst hz
          exact (List.chain'_cons.1 h).1

theorem chain_sortEvents (l : List SmuCalendarEvent) :
    List.Chain' evLe (sortEvents l) := by
  induction l with
  | nil => simp [sortEvents]
  | cons e r ih => exact chain_insertByNo e _ ih

theorem strptimeYmd_error {s : String} {er : PyErr}
    (h : strptimeYmd s = .error er) : er = .valueError := by
  unfold strptimeYmd at h
  split at h
  · split at h
    · dsimp only at h
      split at h
      · cases h
      · cases h; rfl
    · cases h; rfl
  · cases h; rfl

theorem to_ics_error {e : SmuCalendarEvent} {er : PyErr}
    (h : e.to_ics = .error er) : er = .valueError := by
  unfold SmuCalendarEvent.to_ics at h
  cases h6 : strptimeYmd e.etcChar6 with
  | error er6 =>
    rw [h6] at h
    cases h
    exact strptimeYmd_error h6
  | ok b =>
    rw [h6] at h
    cases h7 : strptimeYmd e.etcChar7 with
    | error er7 =>
      rw [h7] at h
      cases h
      exact strptimeYmd_error h7
    | ok e7 =>
      rw [h7] at h
      cases h

theorem to_ics_ok_uid {e : SmuCalendarEvent} {out : IcsEvent}
    (h : e.to_ics = .ok out) : out.uid = toString e.articleNo := by
  unfold SmuCalendarEvent.to_ics at h
  cases h6 : strptimeYmd e.etcChar6 with
  | error er6 => rw [h6] at h; cases h
  | ok b =>
    rw [h6] at h
    cases h7 : strptimeYmd e.etcChar7 with
    | error er7 => rw [h7] at h; cases h
    | ok e7 =>
      rw [h7] at h
      cases h
      rfl

theorem convertAll_error_mem {l : List SmuCalendarEvent} {er : PyErr}
    (h : convertAll l = .error er) : ∃ e ∈ l, e.to_ics = .error er := by
  induction l with
  | nil => cases h
  | cons e r ih =>
    unfold convertAll at h
    cases he : e.to_ics with
    | error er2 =>
      rw [he] at h
      cases h
      exact ⟨e, List.mem_cons_self _ _, he⟩
    | ok out =>
      rw [he] at h
      cases hr : convertAll r with
      | error er2 =>
        rw [hr] at h
        cases h
        obtain ⟨x, hx, hxe⟩ := ih hr
        exact ⟨x, List.mem_cons_of_mem _ hx, hxe⟩
      | ok outs =>
        rw [hr] at h
        cases h

theorem convertAll_error_of_mem {l : List SmuCalendarEvent}
    {e : SmuCalendarEvent} {er : PyErr} (he : e ∈ l)
    (hb : e.to_ics = .error er) : ∃ er2, convertAll l = .error er2 := by
  induction l with
  | nil => cases he
  | cons x r ih =>
    unfold convertAll
    cases hx : x.to_ics with
    | error er2 => exact ⟨er2, rfl⟩
    | ok out =>
      rcases List.mem_cons.1 he with h | h
      · subst h
        rw [hb] at hx
        cases hx
      · obtain ⟨er2, hr⟩ := ih h
        rw [hr]
        exact ⟨er2, rfl⟩

theorem convertAll_ok_uids {l : List SmuCalendarEvent} {outs : List IcsEvent}
    (h : convertAll l = .ok outs) :
    outs.map (fun ev => ev.uid) = l.map (fun e => toString e.articleNo) := by
  induction l generalizing outs with
  | nil => cases h; rfl
  | cons e r ih =>
    unfold convertAll at h
    cases he : e.to_ics with
    | error er => rw [he] at h; cases h
    | ok out =>
      rw [he] at h
      cases hr : convertAll r with
      | error er => rw [hr] at h; cases h
      | ok outs2 =>
        rw [hr] at h
        cases h
        simp only [List.map_cons]
        rw [ih hr, to_ics_ok_uid he]

/-! ## C4: where a date-format failure is caught -/

/-- Counterexample to C4: a year delivering a record whose start date does
not parse.  The record passes the per-year loop untouched (it sits in the
aggregated set), and the `ValueError` raised by `strptime` during the
output-conversion loop in `main` terminates the whole run — it is NOT
caught at the per-year boundary and the year is NOT merely skipped, contrary
to the claim that only output-document writing errors are unhandled. -/
theorem c4_counterexample :
    badEvent ∈ (fetch_events 2025 getBad).1 ∧
    mainRun 2025 getBad = .error .valueError := by
  constructor
  · show badEvent ∈ (fetch_events 2025 getBad).1
    decide
  · rfl

/-- C4 (amended): a `DateFormatError` does not have the blast radius of a
`SchemaError`.  Date parsing happens only inside `to_ics`, which `main`
calls after aggregation, outside every `try`; so whenever the aggregated set
contains a record whose date fields fail to parse, the run terminates with
the uncaught `ValueError` instead of skipping a year. -/
theorem c4_dateformat_error_escapes_run (cy : Int) (get : Crawl)
    (e : SmuCalendarEvent) (he : e ∈ (fetch_events cy get).1)
    (hb : e.to_ics = .error .valueError) :
    mainRun cy get = .error .valueError := by
  obtain ⟨er2, hconv⟩ :=
    convertAll_error_of_mem (mem_sortEvents he) hb
  have her2 : er2 = .valueError := by
    obtain ⟨x, _, hxe⟩ := convertAll_error_mem hconv
    exact to_ics_error hxe
  unfold mainRun
  rw [hconv, her2]

/-- Witness for the amended C4 at the concrete failing input. -/
theorem c4_witness :
    badEvent.to_ics = .error .valueError ∧
    mainRun 2025 getBad = .error .valueError :=
  ⟨by rfl,
    c4_dateformat_error_escapes_run 2025 getBad badEvent (by decide) (by rfl)⟩

/-! ## C5: output order -/

/-- Counterexample to C5: with two aggregated records sharing article number
42 (they differ in their title, so the set keeps both — see C1), the output
emits the key sequence `[42, 42]`, which is not strictly ascending. -/
theorem c5_counterexample :
    outputOrderKeys 2025 getDup = [42, 42] ∧
    ¬ List.Chain' (fun a b : Int => a < b) (outputOrderKeys 2025 getDup) := by
  constructor
  · rfl
  · intro h
    rw [show outputOrderKeys 2025 getDup = [42, 42] from rfl] at h
    simp [List.chain'_cons] at h

/-- C5 (amended): the output document emits the aggregated events in
non-decreasing article-number order (ascending with possible ties), and the
emitted uids are exactly the article numbers in that order; strictness can
fail only between distinct records sharing an article number, which the set
keeps separately. -/
theorem c5_output_sorted_by_article_number (cy : Int) (get : Crawl) :
    List.Chain' (fun a b : Int => a ≤ b) (outputOrderKeys cy get) ∧
    (∀ c, mainRun cy get = .ok c →
      c.events.map (fun ev => ev.uid) = (outputOrderKeys cy get).map toString) := by
  constructor
  · unfold outputOrderKeys
    rw [List.chain'_map]
    exact chain_sortEvents _
  · intro c hc
    unfold mainRun at hc
    cases hconv : convertAll (sortEvents (fetch_events cy get).1) with
    | error er => rw [hconv] at hc; cases hc
    | ok outs =>
      rw [hconv] at hc
      cases hc
      show outs.map (fun ev => ev.uid) = _
      rw [convertAll_ok_uids hconv]
      unfold outputOrderKeys
      rw [List.map_map]
      rfl

/-- Witness for the amended C5 on the duplicate-key run: keys `[42, 42]` are
non-decreasing and the document's uids are `["42", "42"]`. -/
theorem c5_witness :
    List.Chain' (fun a b : Int => a ≤ b) (outputOrderKeys 2025 getDup) ∧
    calDup.events.map (fun ev => ev.uid) = (outputOrderKeys 2025 getDup).map toString :=
  ⟨(c5_output_sorted_by_article_number 2025 getDup).1,
   (c5_output_sorted_by_article_number 2025 getDup).2 calDup (by rfl)⟩

/-! ## C7: deserialization lemmas -/

theorem getStrField_of_lookup {d : PyDict} {k : String} {s : String}
    (h : jlookup d k = some (.str s)) : getStrField d k = .ok s := by
  simp [getStrField, dictGet, h, Bind.bind, Except.bind, pure, Except.pure]

theorem getIntField_of_lookup {d : PyDict} {k : String} {n : Int}
    (h : jlookup d k = some (.num n)) : getIntField d k = .ok n := by
  simp [getIntField, dictGet, h, Bind.bind, Except.bind, pure, Except.pure]

theorem getStrField_missing {d : PyDict} {k : String}
    (h : jlookup d k = none) : getStrField d k = .error .keyError := by
  simp [getStrField, dictGet, h, Bind.bind, Except.bind]

theorem getIntField_missing {d : PyDict} {k : String}
    (h : jlookup d k = none) : getIntField d k = .error .keyError := by
  simp [getIntField, dictGet, h, Bind.bind, Except.bind]

theorem fieldTypedStr_char {d : PyDict} {k : String} {v : JVal}
    (ht : fieldTypedStr d k = true) (h : jlookup d k = some v) :
    ∃ s, v = .str s := by
  unfold fieldTypedStr at ht
  rw [h] at ht
  cases v with
  | str s => exact ⟨s, rfl⟩
  | null => cases ht
  | bool b => cases ht
  | num n => cases ht
  | arr l => cases ht
  | obj o => cases ht

theorem fieldTypedInt_char {d : PyDict} {k : String} {v : JVal}
    (ht : fieldTypedInt d k = true) (h : jlookup d k = some v) :
    ∃ n, v = .num n := by
  unfold fieldTypedInt at ht
  rw [h] at ht
  cases v with
  | num n => exact ⟨n, rfl⟩
  | null => cases ht
  | bool b => cases ht
  | str s => cases ht
  | arr l => cases ht
  | obj o => cases ht

/-- Behaviour of `_deserialize` on one record: under schema-typed values, it
succeeds exactly when all thirteen keys are present, and a missing key makes
it raise `KeyError`. -/
theorem deserializeItem_spec (j : JVal) (hw : itemWellTyped j = true) :
    (hasAllKeys j = true → ∃ ev, deserializeItem j = .ok ev) ∧
    (hasAllKeys j = false → deserializeItem j = .error .keyError) := by
  cases j with
  | null => cases hw
  | bool b => cases hw
  | num n => cases hw
  | str s => cases hw
  | arr l => cases hw
  | obj d =>
    simp only [itemWellTyped, Bool.and_eq_true, and_assoc] at hw
    obtain ⟨hw1, hw2, hw3, hw4, hw5, hw6, hw7, hw8, hw9, hw10, hw11, hw12, hw13⟩ := hw
    constructor
    · intro hk
      simp only [hasAllKeys, Bool.and_eq_true, and_assoc, Option.isSome_iff_exists] at hk
      obtain ⟨⟨v1, hv1⟩, ⟨v2, hv2⟩, ⟨v3, hv3⟩, ⟨v4, hv4⟩, ⟨v5, hv5⟩, ⟨v6, hv6⟩, ⟨v7, hv7⟩, ⟨v8, hv8⟩, ⟨v9, hv9⟩, ⟨v10, hv10⟩, ⟨v11, hv11⟩, ⟨v12, hv12⟩, ⟨v13, hv13⟩⟩ := hk
      obtain ⟨s1, rfl⟩ := fieldTypedStr_char hw1 hv1
      obtain ⟨n2, rfl⟩ := fieldTypedInt_char hw2 hv2
      obtain ⟨s3, rfl⟩ := fieldTypedStr_char hw3 hv3
      obtain ⟨s4, rfl⟩ := fieldTypedStr_char hw4 hv4
      obtain ⟨n5, rfl⟩ := fieldTypedInt_char hw5 hv5
      obtain ⟨n6, rfl⟩ := fieldTypedInt_char hw6 hv6
      obtain ⟨n7, rfl⟩ := fieldTypedInt_char hw7 hv7
      obtain ⟨s8, rfl⟩ := fieldTypedStr_char hw8 hv8
      obtain ⟨s9, rfl⟩ := fieldTypedStr_char hw9 hv9
      obtain ⟨s10, rfl⟩ := fieldTypedStr_char hw10 hv10
      obtain ⟨s11, rfl⟩ := fieldTypedStr_char hw11 hv11
      obtain ⟨s12, rfl⟩ := fieldTypedStr_char hw12 hv12
      obtain ⟨s13, rfl⟩ := fieldTypedStr_char hw13 hv13
      refine ⟨⟨s1, n2, s3, s4, n5, n6, n7, s8, s9, s10, s11, s12, s13⟩, ?_⟩
      simp [deserializeItem, getStrField_of_lookup hv1, getIntField_of_lookup hv2, getStrField_of_lookup hv3, getStrField_of_lookup hv4, getIntField_of_lookup hv5, getIntField_of_lookup hv6, getIntField_of_lookup hv7, getStrField_of_lookup hv8, getStrField_of_lookup hv9, getStrField_of_lookup hv10, getStrField_of_lookup hv11, getStrField_of_lookup hv12, getStrField_of_lookup hv13, Bind.bind, Except.bind, pure, Except.pure]
    · intro hk
      cases hv1 : jlookup d "boardNo" with
      | none => simp [deserializeItem, getStrField_missing hv1, Bind.bind, Except.bind]
      | some v1 =>
        obtain ⟨s1, rfl⟩ := fieldTypedStr_char hw1 hv1
        cases hv2 : jlookup d "articleNo" with
        | none => simp [deserializeItem, getStrField_of_lookup hv1, getIntField_missing hv2, Bind.bind, Except.bind]
        | some v2 =>
          obtain ⟨n2, rfl⟩ := fieldTypedInt_char hw2 hv2
          cases hv3 : jlookup d "articleTitle" with
          | none => simp [deserializeItem, getStrField_of_lookup hv1, getIntField_of_lookup hv2, getStrField_missing hv3, Bind.bind, Except.bind]
          | some v3 =>
            obtain ⟨s3, rfl⟩ := fieldTypedStr_char hw3 hv3
            cases hv4 : jlookup d "articleText" with
            | none => simp [deserializeItem, getStrField_of_lookup hv1, getIntField_of_lookup hv2, getStrField_of_lookup hv3, getStrField_missing hv4, Bind.bind, Except.bind]
            | some v4 =>
              obtain ⟨s4, rfl⟩ := fieldTypedStr_char hw4 hv4
              cases hv5 : jlookup d "createDt" with
              | none => simp [deserializeItem, getStrField_of_lookup hv1, getIntField_of_lookup hv2, getStrField_of_lookup hv3, getStrField_of_lookup hv4, getIntField_missing hv5, Bind.bind, Except.bind]
              | some v5 =>
                obtain ⟨n5, rfl⟩ := fieldTypedInt_char hw5 hv5
                cases hv6 : jlookup d "orderDt" with
                | none => simp [deserializeItem, getStrField_of_lookup hv1, getIntField_of_lookup hv2, getStrField_of_lookup hv3, getStrField_of_lookup hv4, getIntField_of_lookup hv5, getIntField_missing hv6, Bind.bind, Except.bind]
                | some v6 =>
                  obtain ⟨n6, rfl⟩ := fieldTypedInt_char hw6 hv6
                  cases hv7 : jlookup d "updateDt" with
                  | none => simp [deserializeItem, getStrField_of_lookup hv1, getIntField_of_lookup hv2, getStrField_of_lookup hv3, getStrField_of_lookup hv4, getIntField_of_lookup hv5, getIntField_of_lookup hv6, getIntField_missing hv7, Bind.bind, Except.bind]
                  | some v7 =>
                    obtain ⟨n7, rfl⟩ := fieldTypedInt_char hw7 hv7
                    cases hv8 : jlookup d "etcChar4" with
                    | none => simp [deserializeItem, getStrField_of_lookup hv1, getIntField_of_lookup hv2, getStrField_of_lookup hv3, getStrField_of_lookup hv4, getIntField_of_lookup hv5, getIntField_of_lookup hv6, getIntField_of_lookup hv7, getStrField_missing hv8, Bind.bind, Except.bind]
                    | some v8 =>
                      obtain ⟨s8, rfl⟩ := fieldTypedStr_char hw8 hv8
                      cases hv9 : jlookup d "etcChar5" with
                      | none => simp [deserializeItem, getStrField_of_lookup hv1, getIntField_of_lookup hv2, getStrField_of_lookup hv3, getStrField_of_lookup hv4, getIntField_of_lookup hv5, getIntField_of_lookup hv6, getIntField_of_lookup hv7, getStrField_of_lookup hv8, getStrField_missing hv9, Bind.bind, Except.bind]
                      | some v9 =>
                        obtain ⟨s9, rfl⟩ := fieldTypedStr_char hw9 hv9
                        cases hv10 : jlookup d "etcChar6" with
                        | none => simp [deserializeItem, getStrField_of_lookup hv1, getIntField_of_lookup hv2, getStrField_of_lookup hv3, getStrField_of_lookup hv4, getIntField_of_lookup hv5, getIntField_of_lookup hv6, getIntField_of_lookup hv7, getStrField_of_lookup hv8, getStrField_of_lookup hv9, getStrField_missing hv10, Bind.bind, Except.bind]
                        | some v10 =>
                          obtain ⟨s10, rfl⟩ := fieldTypedStr_char hw10 hv10
                          cases hv11 : jlookup d "etcChar7" with
                          | none => simp [deserializeItem, getStrField_of_lookup hv1, getIntField_of_lookup hv2, getStrField_of_lookup hv3, getStrField_of_lookup hv4, getIntField_of_lookup hv5, getIntField_of_lookup hv6, getIntField_of_lookup hv7, getStrField_of_lookup hv8, getStrField_of_lookup hv9, getStrField_of_lookup hv10, getStrField_missing hv11, Bind.bind, Except.bind]
                          | some v11 =>
                            obtain ⟨s11, rfl⟩ := fieldTypedStr_char hw11 hv11
                            cases hv12 : jlookup d "etcChar8" with
                            | none => simp [deserializeItem, getStrField_of_lookup hv1, getIntField_of_lookup hv2, getStrField_of_lookup hv3, getStrField_of_lookup hv4, getIntField_of_lookup hv5, getIntField_of_lookup hv6, getIntField_of_lookup hv7, getStrField_of_lookup hv8, getStrField_of_lookup hv9, getStrField_of_lookup hv10, getStrField_of_lookup hv11, getStrField_missing hv12, Bind.bind, Except.bind]
                            | some v12 =>
                              obtain ⟨s12, rfl⟩ := fieldTypedStr_char hw12 hv12
                              cases hv13 : jlookup d "etcChar9" with
                              | none => simp [deserializeItem, getStrField_of_lookup hv1, getIntField_of_lookup hv2, getStrField_of_lookup hv3, getStrField_of_lookup hv4, getIntField_of_lookup hv5, getIntField_of_lookup hv6, getIntField_of_lookup hv7, getStrField_of_lookup hv8, getStrField_of_lookup hv9, getStrField_of_lookup hv10, getStrField_of_lookup hv11, getStrField_of_lookup hv12, getStrField_missing hv13, Bind.bind, Except.bind]
                              | some v13 =>
                                obtain ⟨s13, rfl⟩ := fieldTypedStr_char hw13 hv13
                                exfalso
                                simp [hasAllKeys, hv1, hv2, hv3, hv4, hv5, hv6, hv7, hv8, hv9, hv10, hv11, hv12, hv13] at hk

/-- C7: over a validated response's `list`, deserialization (with
schema-typed values) produces exactly one `CalendarEvent` per element —
reading the thirteen raw fields by exact key name — and raises `KeyError`
(the spec's SchemaError) as soon as any required key is absent on any
element. -/
theorem c7_deserialize_one_per_item (l : List JVal)
    (hw : ∀ j ∈ l, itemWellTyped j = true) :
    ((∀ j ∈ l, hasAllKeys j = true) →
      ∃ evs, deserializeList l = .ok evs ∧ evs.length = l.length) ∧
    ((∃ j ∈ l, hasAllKeys j = false) → deserializeList l = .error .keyError) := by
  induction l with
  | nil =>
    refine ⟨fun _ => ⟨[], rfl, rfl⟩, fun h => ?_⟩
    obtain ⟨j, hj, _⟩ := h
    cases hj
  | cons j r ih =>
    have hwj : itemWellTyped j = true := hw j (List.mem_cons_self _ _)
    have hwr : ∀ x ∈ r, itemWellTyped x = true :=
      fun x hx => hw x (List.mem_cons_of_mem _ hx)
    obtain ⟨ihr1, ihr2⟩ := ih hwr
    constructor
    · intro hk
      obtain ⟨ev, hev⟩ :=
        (deserializeItem_spec j hwj).1 (hk j (List.mem_cons_self _ _))
      obtain ⟨evs, hevs, hlen⟩ :=
        ihr1 (fun x hx => hk x (List.mem_cons_of_mem _ hx))
      refine ⟨ev :: evs, ?_, by simp [hlen]⟩
      unfold deserializeList
      rw [hev, hevs]
    · intro hex
      obtain ⟨x, hx, hxbad⟩ := hex
      rcases List.mem_cons.1 hx with hxj | hxr
      · subst hxj
        have hj : deserializeItem x = .error .keyError :=
          (deserializeItem_spec x hwj).2 hxbad
        unfold deserializeList
        rw [hj]
      · cases hkj : hasAllKeys j with
        | false =>
          have hj : deserializeItem j = .error .keyError :=
            (deserializeItem_spec j hwj).2 hkj
          unfold deserializeList
          rw [hj]
        | true =>
          obtain ⟨ev, hev⟩ := (deserializeItem_spec j hwj).1 hkj
          have hr : deserializeList r = .error .keyError :=
            ihr2 ⟨x, hxr, hxbad⟩
          unfold deserializeList
          rw [hev, hr]

/-- Witness for C7: a one-record list with all keys deserializes to exactly
one event; dropping `articleNo` raises `KeyError`. -/
theorem c7_witness :
    (∃ evs, deserializeList [goodItem] = .ok evs ∧ evs.length = 1) ∧
    deserializeList [missingItem] = .error .keyError :=
  ⟨(c7_deserialize_one_per_item [goodItem]
      (by intro j hj; rw [List.mem_singleton] at hj; subst hj; rfl)).1
      (by intro j hj; rw [List.mem_singleton] at hj; subst hj; rfl),
   (c7_deserialize_one_per_item [missingItem]
      (by intro j hj; rw [List.mem_singleton] at hj; subst hj; rfl)).2
      ⟨missingItem, List.mem_singleton_self _, by rfl⟩⟩

/-! ## C9 lemmas: escaping and unescaping -/

theorem escapeChar_ne_lt {c a : Char} (h : a ∈ escapeChar c) : a ≠ '<' := by
  unfold escapeChar at h
  split at h
  · simp at h
    rcases h with rfl | rfl | rfl | rfl | rfl <;> decide
  · split at h
    · simp at h
      rcases h with rfl | rfl | rfl | rfl <;> decide
    · split at h
      · simp at h
        rcases h with rfl | rfl | rfl | rfl <;> decide
      · split at h
        · simp at h
          rcases h with rfl | rfl | rfl | rfl | rfl | rfl <;> decide
        · rename_i h1 h2 h3 h4
          simp at h
          subst h
          exact h2

theorem escapeText_cons (c : Char) (r : List Char) :
    escapeText (c :: r) = escapeChar c ++ escapeText r := by
  simp [escapeText]

theorem escapeText_ne_lt {t : List Char} : ∀ a ∈ escapeText t, a ≠ '<' := by
  induction t with
  | nil => intro a ha; cases ha
  | cons c r ih =>
    intro a ha
    rw [escapeText_cons] at ha
    rcases List.mem_append.1 ha with h | h
    · exact escapeChar_ne_lt h
    · exact ih a h

theorem ampClosed_tail {c : Char} {r : List Char}
    (h : ampClosed (c :: r) = true) : ampClosed r = true := by
  have h2 : ((if c = '&' then r.any (fun x => x = ';') else true) && ampClosed r) = true := h
  rw [Bool.and_eq_true] at h2
  exact h2.2

theorem ampClosed_drop (k : Nat) (l : List Char)
    (h : ampClosed l = true) : ampClosed (l.drop k) = true := by
  induction k generalizing l with
  | zero => exact h
  | succ n ih =>
    cases l with
    | nil => exact h
    | cons c r => exact ih r (ampClosed_tail h)

theorem ampClosed_escapeText (t : List Char) :
    ampClosed (escapeText t) = true := by
  induction t with
  | nil => rfl
  | cons c r ih =>
    rw [escapeText_cons]
    unfold escapeChar
    split
    · simp [ampClosed, ih]
    · split
      · simp [ampClosed, ih]
      · split
        · simp [ampClosed, ih]
        · split
          · simp [ampClosed, ih]
          · rename_i h1 h2 h3 h4
            simp [ampClosed, ih, h1]

theorem lastAmpSuffix_shape {l s : List Char}
    (h : lastAmpSuffix l = some s) : s <:+ l ∧ ∃ r, s = '&' :: r := by
  induction l with
  | nil => cases h
  | cons c r ih =>
    unfold lastAmpSuffix at h
    cases hr : lastAmpSuffix r with
    | some s2 =>
      rw [hr] at h
      have h2 : some s2 = some s := h
      cases h2
      obtain ⟨hs, he⟩ := ih hr
      exact ⟨hs.trans (List.suffix_cons c r), he⟩
    | none =>
      rw [hr] at h
      have h2 : (if c = '&' then some (c :: r) else none) = some s := h
      by_cases hc : c = '&'
      · rw [if_pos hc] at h2
        have h3 : c :: r = s := Option.some.inj h2
        subst hc
        rw [← h3]
        exact ⟨List.suffix_refl _, r, rfl⟩
      · rw [if_neg hc] at h2
        cases h2

theorem ampClosed_suffix_semi {l s : List Char}
    (hc : ampClosed l = true) (hs : ('&' :: s) <:+ l) :
    s.any (fun x => x = ';') = true := by
  induction l with
  | nil =>
    have := hs.length_le
    simp at this
  | cons c r ih =>
    rcases List.suffix_cons_iff.1 hs with h | h
    · injection h with h1 h2
      subst h2
      rw [← h1] at hc
      have hc3 : (s.any (fun x => x = ';') && ampClosed s) = true := hc
      rw [Bool.and_eq_true] at hc3
      exact hc3.1
    · exact ih (ampClosed_tail hc) h

theorem hasDanglingAmp_of_ampClosed {l : List Char}
    (h : ampClosed l = true) : hasDanglingAmp l = false := by
  unfold hasDanglingAmp
  cases hl : lastAmpSuffix (l.drop (l.length - 34)) with
  | none => rfl
  | some s =>
    obtain ⟨hsuf, r, rfl⟩ := lastAmpSuffix_shape hl
    have hcd : ampClosed (l.drop (l.length - 34)) = true := ampClosed_drop _ _ h
    have hsemi := ampClosed_suffix_semi hcd hsuf
    have hany : (('&' : Char) :: r).any wsOrSemi = true := by
      rw [List.any_eq_true] at hsemi ⊢
      obtain ⟨x, hx, hxe⟩ := hsemi
      have hxv : x = ';' := by simpa using hxe
      subst hxv
      exact ⟨';', List.mem_cons_of_mem _ hx, by decide⟩
    show (!(('&' :: r).any wsOrSemi)) = false
    rw [hany]
    rfl

theorem hasDanglingAmp_escapeText (t : List Char) :
    hasDanglingAmp (escapeText t) = false :=
  hasDanglingAmp_of_ampClosed (ampClosed_escapeText t)

theorem parseCharref_amp (E : List Char) :
    parseCharref ('a' :: 'm' :: 'p' :: ';' :: E) = some (['&'], E) := rfl

theorem parseCharref_lt (E : List Char) :
    parseCharref ('l' :: 't' :: ';' :: E) = some (['<'], E) := rfl

theorem parseCharref_gt (E : List Char) :
    parseCharref ('g' :: 't' :: ';' :: E) = some (['>'], E) := rfl

theorem parseCharref_quot (E : List Char) :
    parseCharref ('q' :: 'u' :: 'o' :: 't' :: ';' :: E) = some (['"'], E) := rfl

theorem unescapeF_escapeText (fuel : Nat) :
    ∀ (t : List Char), (escapeText t).length < fuel →
      unescapeF fuel (escapeText t) = t := by
  induction fuel with
  | zero =>
    intro t h
    omega
  | succ f ih =>
    intro t h
    cases t with
    | nil => rfl
    | cons c r =>
      rw [escapeText_cons] at h ⊢
      by_cases h1 : c = '&'
      · subst h1
        show ('&' : Char) :: unescapeF f (escapeText r) = '&' :: r
        have hr : (escapeText r).length < f := by
          simp [escapeChar] at h
          omega
        rw [ih r hr]
      · by_cases h2 : c = '<'
        · subst h2
          show ('<' : Char) :: unescapeF f (escapeText r) = '<' :: r
          have hr : (escapeText r).length < f := by
            simp [escapeChar] at h
            omega
          rw [ih r hr]
        · by_cases h3 : c = '>'
          · subst h3
            show ('>' : Char) :: unescapeF f (escapeText r) = '>' :: r
            have hr : (escapeText r).length < f := by
              simp [escapeChar] at h
              omega
            rw [ih r hr]
          · by_cases h4 : c = '"'
            · subst h4
              show ('"' : Char) :: unescapeF f (escapeText r) = '"' :: r
              have hr : (escapeText r).length < f := by
                simp [escapeChar] at h
                omega
              rw [ih r hr]
            · have hec : escapeChar c = [c] := by
                simp [escapeChar, h1, h2, h3, h4]
              rw [hec] at h ⊢
              have hr : (escapeText r).length < f := by
                simp at h
                omega
              simp only [List.singleton_append, unescapeF, h1, if_neg]
              rw [ih r hr]
              simp

theorem unescapeL_escapeText (t : List Char) :
    unescapeL (escapeText t) = t :=
  unescapeF_escapeText _ t (by omega)

/-! ## C9 lemmas: markup scanning -/

theorem dropUntilGt_append {pre s : List Char} (h : ∀ a ∈ pre, a ≠ '>') :
    dropUntilGt (pre ++ '>' :: s) = some s := by
  induction pre with
  | nil => rfl
  | cons c p ih =>
    have hc : c ≠ '>' := h c (List.mem_cons_self _ _)
    rw [List.cons_append]
    unfold dropUntilGt
    rw [if_neg hc]
    exact ih (fun a ha => h a (List.mem_cons_of_mem _ ha))

theorem dropPastCommentEnd_append {s r : List Char} (h : ∀ a ∈ s, a ≠ '-') :
    dropPastCommentEnd (s ++ '-' :: '-' :: '>' :: r) = some r := by
  induction s with
  | nil => rfl
  | cons c p ih =>
    have hc : c ≠ '-' := h c (List.mem_cons_self _ _)
    rw [List.cons_append]
    unfold dropPastCommentEnd
    rw [if_neg hc]
    exact ih (fun a ha => h a (List.mem_cons_of_mem _ ha))

theorem isAlpha_ne_gt {a : Char} (h : a.isAlpha = true) : a ≠ '>' := by
  intro he
  subst he
  cases h

theorem tagOk_parts {tag : List Char} (h : tagOk tag = true) :
    tag ≠ [] ∧ ∀ a ∈ tag, a.isAlpha = true := by
  unfold tagOk at h
  rw [Bool.and_eq_true, Bool.and_eq_true, Bool.and_eq_true] at h
  obtain ⟨⟨⟨hne, hall⟩, _⟩, _⟩ := h
  constructor
  · intro he
    subst he
    cases hne
  · intro a ha
    exact List.all_eq_true.1 hall a ha

theorem attrOk_parts {a : List Char × List Char} (h : attrOk a = true) :
    (∀ x ∈ a.1, x.isAlpha = true) ∧ (∀ x ∈ a.2, x ≠ '>') := by
  unfold attrOk at h
  rw [Bool.and_eq_true, Bool.and_eq_true] at h
  obtain ⟨⟨_, hname⟩, hval⟩ := h
  constructor
  · intro x hx
    exact List.all_eq_true.1 hname x hx
  · intro x hx he
    subst he
    have := List.all_eq_true.1 hval _ hx
    simp at this

theorem renderAttr_ne_gt {a : List Char × List Char} (h : attrOk a = true) :
    ∀ x ∈ renderAttr a, x ≠ '>' := by
  obtain ⟨hname, hval⟩ := attrOk_parts h
  intro x hx
  unfold renderAttr at hx
  rcases List.mem_cons.1 hx with rfl | hx
  · decide
  · rcases List.mem_append.1 hx with hx | hx
    · exact isAlpha_ne_gt (hname x hx)
    · rcases List.mem_cons.1 hx with rfl | hx
      · decide
      · rcases List.mem_cons.1 hx with rfl | hx
        · decide
        · rcases List.mem_append.1 hx with hx | hx
          · exact hval x hx
          · rcases List.mem_cons.1 hx with rfl | hx
            · decide
            · cases hx

theorem renderAttrs_ne_gt {attrs : List (List Char × List Char)}
    (h : attrs.all attrOk = true) : ∀ x ∈ renderAttrs attrs, x ≠ '>' := by
  intro x hx
  unfold renderAttrs at hx
  rw [List.mem_flatten] at hx
  obtain ⟨l, hl, hxl⟩ := hx
  rw [List.mem_map] at hl
  obtain ⟨a, ha, rfl⟩ := hl
  exact renderAttr_ne_gt (List.all_eq_true.1 h a ha) x hxl

theorem markupStep_alpha {c : Char} {r : List Char} (h : c.isAlpha = true) :
    markupStep (c :: r) =
      (match dropUntilGt (c :: r) with
       | none => MarkupStep.drop
       | some s => MarkupStep.cont s) := by
  simp [markupStep, h]

theorem markupStep_slash (r : List Char) :
    markupStep ('/' :: r) =
      (match dropUntilGt r with
       | none => MarkupStep.drop
       | some s => MarkupStep.cont s) := rfl

theorem markupStep_comment (r2 : List Char) :
    markupStep ('!' :: '-' :: '-' :: r2) =
      (match dropPastCommentEnd r2 with
       | none => MarkupStep.drop
       | some s => MarkupStep.cont s) := rfl

theorem markupStep_tagBody (it : HItem) (hnt : isTextItem it = false)
    (hit : wfItem it = true) (S : List Char) :
    markupStep (tagBody it ++ S) = .cont S := by
  cases it with
  | textN t => cases hnt
  | openTag tag attrs =>
    unfold wfItem at hit
    rw [Bool.and_eq_true] at hit
    obtain ⟨htag, hattrs⟩ := hit
    obtain ⟨hne, halpha⟩ := tagOk_parts htag
    cases tag with
    | nil => cases hne rfl
    | cons c tg =>
      have hca : c.isAlpha = true := halpha c (List.mem_cons_self _ _)
      have hrw : tagBody (.openTag (c :: tg) attrs) ++ S
          = c :: ((tg ++ renderAttrs attrs) ++ '>' :: S) := by
        unfold tagBody
        simp
      rw [hrw, markupStep_alpha hca]
      have hpre : ∀ a ∈ (c :: (tg ++ renderAttrs attrs)), a ≠ '>' := by
        intro a ha
        rcases List.mem_cons.1 ha with rfl | ha
        · exact isAlpha_ne_gt hca
        · rcases List.mem_append.1 ha with ha | ha
          · exact isAlpha_ne_gt (halpha a (List.mem_cons_of_mem _ ha))
          · exact renderAttrs_ne_gt hattrs a ha
      have hgt : dropUntilGt (c :: ((tg ++ renderAttrs attrs) ++ '>' :: S)) = some S := by
        have h2 := @dropUntilGt_append (c :: (tg ++ renderAttrs attrs)) S hpre
        simpa using h2
      rw [hgt]
  | closeTag tag =>
    unfold wfItem at hit
    obtain ⟨hne, halpha⟩ := tagOk_parts hit
    have hrw : tagBody (.closeTag tag) ++ S = '/' :: (tag ++ '>' :: S) := by
      unfold tagBody
      simp
    rw [hrw, markupStep_slash]
    have hgt : dropUntilGt (tag ++ '>' :: S) = some S :=
      dropUntilGt_append (fun a ha => isAlpha_ne_gt (halpha a ha))
    rw [hgt]
  | commentN s =>
    unfold wfItem at hit
    have hrw : tagBody (.commentN s) ++ S
        = '!' :: '-' :: '-' :: (s ++ '-' :: '-' :: '>' :: S) := by
      unfold tagBody
      simp
    rw [hrw, markupStep_comment]
    have hs : ∀ a ∈ s, a ≠ '-' := by
      intro a ha
      have := List.all_eq_true.1 hit a ha
      simpa using this
    rw [dropPastCommentEnd_append hs]

theorem dropWhile_ne_lt_nil {l : List Char} (h : ∀ a ∈ l, a ≠ '<') :
    List.dropWhile (fun c => c ≠ '<') l = [] := by
  induction l with
  | nil => rfl
  | cons c p ih =>
    rw [List.dropWhile_cons]
    rw [if_pos (by simp [h c (List.mem_cons_self _ _)])]
    exact ih (fun a ha => h a (List.mem_cons_of_mem _ ha))

theorem dropWhile_ne_lt_of_all {l X : List Char} (h : ∀ a ∈ l, a ≠ '<') :
    List.dropWhile (fun c => c ≠ '<') (l ++ '<' :: X) = '<' :: X := by
  induction l with
  | nil =>
    rw [List.nil_append, List.dropWhile_cons]
    simp
  | cons c p ih =>
    rw [List.cons_append, List.dropWhile_cons]
    rw [if_pos (by simp [h c (List.mem_cons_self _ _)])]
    exact ih (fun a ha => h a (List.mem_cons_of_mem _ ha))

theorem takeWhile_ne_lt_of_all {l X : List Char} (h : ∀ a ∈ l, a ≠ '<') :
    List.takeWhile (fun c => c ≠ '<') (l ++ '<' :: X) = l := by
  induction l with
  | nil =>
    rw [List.nil_append, List.takeWhile_cons]
    simp
  | cons c p ih =>
    rw [List.cons_append, List.takeWhile_cons]
    rw [if_pos (by simp [h c (List.mem_cons_self _ _)])]
    rw [ih (fun a ha => h a (List.mem_cons_of_mem _ ha))]

/-! ## C9: the extractor returns exactly the text content -/

theorem goaheadF_succ_eq (f : Nat) (l : List Char) :
    goaheadF (f + 1) l =
      (match l.dropWhile (fun c => c ≠ '<') with
       | [] => if hasDanglingAmp l then [] else unescapeL l
       | _ :: r =>
         unescapeL (l.takeWhile (fun c => c ≠ '<')) ++
         (match markupStep r with
          | .drop => []
          | .cont s => goaheadF f s
          | .lit s => '<' :: goaheadF f s)) := rfl

theorem renderItems_cons (it : HItem) (rest : List HItem) :
    renderItems (it :: rest) = renderItem it ++ renderItems rest := by
  simp [renderItems]

theorem textsOf_cons (it : HItem) (rest : List HItem) :
    textsOf (it :: rest) = textOf it ++ textsOf rest := by
  simp [textsOf]

theorem renderItem_nontext {it : HItem} (h : isTextItem it = false) :
    renderItem it = '<' :: tagBody it := by
  cases it with
  | textN t => cases h
  | openTag tag attrs => rfl
  | closeTag tag => rfl
  | commentN s => rfl

theorem noAdjTexts_tail {x : HItem} {r : List HItem}
    (h : noAdjTexts (x :: r) = true) : noAdjTexts r = true := by
  cases x with
  | textN t =>
    cases r with
    | nil => rfl
    | cons y r2 =>
      cases y with
      | textN t2 => cases h
      | openTag tag attrs => exact h
      | closeTag tag => exact h
      | commentN s => exact h
  | openTag tag attrs => exact h
  | closeTag tag => exact h
  | commentN s => exact h

theorem wfItems_cons {x : HItem} {r : List HItem} (h : wfItems (x :: r) = true) :
    wfItem x = true ∧ wfItems r = true := by
  unfold wfItems at h ⊢
  rw [Bool.and_eq_true] at h
  obtain ⟨hall, hadj⟩ := h
  rw [List.all_cons, Bool.and_eq_true] at hall
  refine ⟨hall.1, ?_⟩
  rw [Bool.and_eq_true]
  exact ⟨hall.2, noAdjTexts_tail hadj⟩

theorem noAdjTexts_head2 {t : List Char} {it : HItem} {r : List HItem}
    (h : noAdjTexts (HItem.textN t :: it :: r) = true) :
    isTextItem it = false := by
  cases it with
  | textN t2 => cases h
  | openTag tag attrs => rfl
  | closeTag tag => rfl
  | commentN s => rfl

theorem goaheadF_nontext (f : Nat) (it : HItem) (rest : List HItem)
    (hnt : isTextItem it = false) (hit : wfItem it = true) :
    goaheadF (f + 1) (renderItems (it :: rest)) = goaheadF f (renderItems rest) := by
  have hrend : renderItems (it :: rest) = '<' :: (tagBody it ++ renderItems rest) := by
    rw [renderItems_cons, renderItem_nontext hnt]
    simp
  rw [hrend]
  show ([] : List Char) ++
      (match markupStep (tagBody it ++ renderItems rest) with
       | MarkupStep.drop => ([] : List Char)
       | MarkupStep.cont s => goaheadF f s
       | MarkupStep.lit s => '<' :: goaheadF f s) = goaheadF f (renderItems rest)
  rw [markupStep_tagBody it hnt hit]
  simp

theorem goaheadF_text_then (f : Nat) (t : List Char) (it : HItem)
    (rest : List HItem) (hnt : isTextItem it = false) (hit : wfItem it = true) :
    goaheadF (f + 1) (renderItems (.textN t :: it :: rest)) =
      t ++ goaheadF f (renderItems rest) := by
  have hrend : renderItems (.textN t :: it :: rest)
      = escapeText t ++ '<' :: (tagBody it ++ renderItems rest) := by
    rw [renderItems_cons, renderItems_cons, renderItem_nontext hnt]
    simp [renderItem]
  rw [hrend, goaheadF_succ_eq,
    dropWhile_ne_lt_of_all escapeText_ne_lt,
    takeWhile_ne_lt_of_all escapeText_ne_lt]
  show unescapeL (escapeText t) ++
      (match markupStep (tagBody it ++ renderItems rest) with
       | MarkupStep.drop => ([] : List Char)
       | MarkupStep.cont s => goaheadF f s
       | MarkupStep.lit s => '<' :: goaheadF f s) = t ++ goaheadF f (renderItems rest)
  rw [markupStep_tagBody it hnt hit, unescapeL_escapeText]

theorem goaheadF_text_end (f : Nat) (t : List Char) :
    goaheadF (f + 1) (renderItems [HItem.textN t]) = t := by
  have hrend : renderItems [HItem.textN t] = escapeText t := by
    simp [renderItems, renderItem]
  rw [hrend, goaheadF_succ_eq, dropWhile_ne_lt_nil escapeText_ne_lt]
  show (if hasDanglingAmp (escapeText t) then [] else unescapeL (escapeText t)) = t
  rw [hasDanglingAmp_escapeText, unescapeL_escapeText]
  rfl

theorem goaheadF_renderItems (fuel : Nat) :
    ∀ (items : List HItem), wfItems items = true →
      (renderItems items).length < fuel →
      goaheadF fuel (renderItems items) = textsOf items := by
  induction fuel with
  | zero =>
    intro items _ h
    omega
  | succ f ih =>
    intro items hwf hlen
    cases items with
    | nil => rfl
    | cons it rest =>
      obtain ⟨hit, hrest⟩ := wfItems_cons hwf
      cases hti : isTextItem it with
      | false =>
        rw [goaheadF_nontext f it rest hti hit]
        have hlen2 : (renderItems rest).length < f := by
          rw [renderItems_cons, renderItem_nontext hti] at hlen
          simp [List.length_append] at hlen
          omega
        rw [ih rest hrest hlen2, textsOf_cons]
        have hto : textOf it = [] := by
          cases it with
          | textN t => cases hti
          | openTag tag attrs => rfl
          | closeTag tag => rfl
          | commentN s => rfl
        rw [hto, List.nil_append]
      | true =>
        cases it with
        | textN t =>
          cases rest with
          | nil =>
            rw [goaheadF_text_end]
            simp [textsOf, textOf]
          | cons it2 rest2 =>
            have hnt2 : isTextItem it2 = false := by
              unfold wfItems at hwf
              rw [Bool.and_eq_true] at hwf
              exact noAdjTexts_head2 hwf.2
            obtain ⟨hit2, hrest2⟩ := wfItems_cons hrest
            rw [goaheadF_text_then f t it2 rest2 hnt2 hit2]
            have hlen2 : (renderItems rest2).length < f := by
              rw [renderItems_cons, renderItems_cons,
                renderItem_nontext hnt2] at hlen
              simp [List.length_append] at hlen
              omega
            rw [ih rest2 hrest2 hlen2, textsOf_cons, textsOf_cons]
            have hto : textOf it2 = [] := by
              cases it2 with
              | textN t2 => cases hnt2
              | openTag tag attrs => rfl
              | closeTag tag => rfl
              | commentN s => rfl
            rw [hto]
            simp [textOf]
        | openTag tag attrs => cases hti
        | closeTag tag => cases hti
        | commentN s => cases hti

/-- C9: on every well-formed HTML document (rendered from its abstract
form), the extractor returns exactly the concatenation of all text-node
content: tags and attributes are discarded and character references are
resolved to their literal characters. -/
theorem c9_extractor_returns_text_content (items : List HItem)
    (h : wfItems items = true) :
    cleanhtml (String.mk (renderItems items)) = String.mk (textsOf items) := by
  have hg := goaheadF_renderItems ((renderItems items).length + 1) items h
    (by omega)
  unfold cleanhtml goahead
  exact congrArg String.mk hg

/-- Witness for C9 at the spec's example (and at the empty document): the
rendered `exDoc` is the example HTML string, and extraction yields
`Hello & welcome`; the empty string yields the empty string. -/
theorem c9_witness :
    wfItems exDoc = true ∧
    String.mk (renderItems exDoc) = "<div><p>Hello &amp; welcome</p></div>" ∧
    String.mk (textsOf exDoc) = "Hello & welcome" ∧
    cleanhtml "<div><p>Hello &amp; welcome</p></div>" = "Hello & welcome" ∧
    cleanhtml "" = "" :=
  ⟨by rfl, by rfl, by rfl,
   by
    rw [show ("<div><p>Hello &amp; welcome</p></div>" : String)
        = String.mk (renderItems exDoc) from rfl,
      c9_extractor_returns_text_content exDoc (by rfl)]
    rfl,
   c9_extractor_returns_text_content [] (by rfl)⟩
